import Mathlib

/-!
Verification of the go-routeros client library: wire framing
(`encodeLength` / `readLength`), sentence parsing (`ReadSentence`),
the sentence writer with its sticky error, command validation
(`RunArgs`), the login handshake, tag allocation and the asynchronous
wait timeout.  Go byte strings are modelled as `List Char` (one `Char`
per byte), wire bytes as `Nat` below 256, and fallible reads as
`Option` / `Except`.
-/

set_option maxRecDepth 4000

namespace RouterOS

/-- `encodeLength` from the writer (proto/writer.go): encodes a word
length into the variable-length RouterOS size prefix.  `byte(x)` in Go
is modelled as `x % 256`. -/
def encodeLength (l : Nat) : List Nat :=
  if l < 0x80 then
    [l % 256]
  else if l < 0x4000 then
    [((l >>> 8) % 256) ||| 0x80, l % 256]
  else if l < 0x200000 then
    [((l >>> 16) % 256) ||| 0xC0, (l >>> 8) % 256, l % 256]
  else if l < 0x10000000 then
    [((l >>> 24) % 256) ||| 0xE0, (l >>> 16) % 256, (l >>> 8) % 256, l % 256]
  else
    [0xF0, (l >>> 24) % 256, (l >>> 16) % 256, (l >>> 8) % 256, l % 256]

/-- `reader.readNumber` (proto/reader.go): reads `size` bytes from the
stream and folds them big-endian (`num = num<<8 | ch`).  `none` models
the read error when the stream is too short. -/
def readNumber (size : Nat) (s : List Nat) : Option (Nat × List Nat) :=
  if s.length < size then none
  else some ((s.take size).foldl (fun num ch => (num <<< 8) ||| ch) 0, s.drop size)

/-- The 64-bit complement `^c` of a mask constant, as Go computes it on
an `int64` value (the decoded length fits in 64 bits). -/
def compl64 (c : Nat) : Nat := 0xFFFFFFFFFFFFFFFF ^^^ c

/-- `reader.readLength` (proto/reader.go): decodes the variable-length
size prefix.  Mirrors the Go `switch` on the first byte; Go operator
precedence makes `l & ^m << k | n` parse as `((l & ^m) << k) | n`. -/
def readLength (s : List Nat) : Option (Nat × List Nat) :=
  match readNumber 1 s with
  | none => none
  | some (l, s1) =>
    if l &&& 0x80 = 0x00 then some (l, s1)
    else if l &&& 0xC0 = 0x80 then
      match readNumber 1 s1 with
      | none => none
      | some (n, s2) => some (((l &&& compl64 0xC0) <<< 8) ||| n, s2)
    else if l &&& 0xE0 = 0xC0 then
      match readNumber 2 s1 with
      | none => none
      | some (n, s2) => some (((l &&& compl64 0xE0) <<< 16) ||| n, s2)
    else if l &&& 0xF0 = 0xE0 then
      match readNumber 3 s1 with
      | none => none
      | some (n, s2) => some (((l &&& compl64 0xF0) <<< 24) ||| n, s2)
    else if l &&& 0xF8 = 0xF0 then
      readNumber 4 s1
    else some (l, s1)

/-! ### Sentence parsing (proto/reader.go, ReadSentence) -/

/-- `proto.Pair`: one `key=value` attribute. -/
structure Pair where
  key : List Char
  value : List Char
deriving DecidableEq, Repr

/-- The `proto.Sentence` fields used by the reader: the verb word, the
tag, the ordered pair list and the derived map. -/
structure Sentence where
  word : List Char
  tag : List Char
  list : List Pair
  map : List (List Char × List Char)
deriving DecidableEq, Repr

/-- Modelled from the spec: `proto.NewSentence` (sentence.go is not
among the provided sources) returns a fresh sentence with empty verb,
tag, pair list and a usable empty map. -/
def NewSentence : Sentence := ⟨[], [], [], []⟩

/-- Go map assignment `sen.Map[p.Key] = p.Value`: the newest binding is
consed on, so a first-match `List.lookup` is last-write-wins. -/
def mapInsert (m : List (List Char × List Char)) (k v : List Char) :
    List (List Char × List Char) := (k, v) :: m

/-- `bytes.SplitN(b[1:], "=", 2)`: the part before the first `=` and,
when an `=` is present, the whole remainder after it. -/
def splitFirstEq : List Char → List Char × Option (List Char)
  | [] => ([], none)
  | c :: cs =>
    if c = '=' then ([], some cs)
    else
      let r := splitFirstEq cs
      (c :: r.1, r.2)

/-- Errors of `reader.ReadSentence`: a failed `readWord` (modelled by
stream exhaustion) or the `invalid RouterOS sentence word` error. -/
inductive ReadErr where
  | wordReadFailed
  | invalidSentenceWord (w : List Char)
deriving DecidableEq, Repr

/-- The byte string `.tag=`. -/
def tagMark : List Char := ['.', 't', 'a', 'g', '=']

/-- The loop of `reader.ReadSentence` (proto/reader.go), recursing over
the stream of words delivered by `readWord`; an empty word ends the
sentence, the first word becomes the verb, `.tag=` words set the tag,
`=`-words are split into a pair, anything else is a protocol error. -/
def readSentenceWords (sen : Sentence) :
    List (List Char) → Except ReadErr (Sentence × List (List Char))
  | [] => .error .wordReadFailed
  | w :: ws =>
    if w = [] then .ok (sen, ws)
    else if sen.word = [] then readSentenceWords { sen with word := w } ws
    else if tagMark.isPrefixOf w then
      readSentenceWords { sen with tag := w.drop 5 } ws
    else if ['='].isPrefixOf w then
      let t := splitFirstEq (w.drop 1)
      let p : Pair := ⟨t.1, t.2.getD []⟩
      readSentenceWords
        { sen with
          list := sen.list ++ [p],
          map := mapInsert sen.map p.key p.value } ws
    else .error (.invalidSentenceWord w)

/-- `reader.ReadSentence`, starting from `NewSentence`. -/
def ReadSentence (ws : List (List Char)) :
    Except ReadErr (Sentence × List (List Char)) :=
  readSentenceWords NewSentence ws

/-! ### Sentence writer (proto/writer.go) -/

/-- State of the `writer` struct (proto/writer.go): the sticky `err`
field, plus instrumentation of the physical I/O performed on the
buffered writer: `attempts` counts the I/O operations attempted and
`trace` records the byte strings successfully written.  The outcome of
the n-th physical operation is supplied by an environment
`env : Nat → Option Nat` (`some e` = that operation fails with error
`e`). -/
structure WriterState where
  err : Option Nat
  attempts : Nat
  trace : List (List Nat)
deriving DecidableEq, Repr

/-- A freshly created writer (`NewWriter`): no error, no I/O yet. -/
def initWriter : WriterState := ⟨none, 0, []⟩

/-- `writer.write`: when the sticky error is set the call returns at
once (no I/O at all); otherwise one physical write is attempted and a
failure is recorded in `err`. -/
def writerWrite (env : Nat → Option Nat) (s : WriterState) (b : List Nat) :
    WriterState :=
  match s.err with
  | some _ => s
  | none =>
    match env s.attempts with
    | some e => { s with err := some e, attempts := s.attempts + 1 }
    | none => { s with attempts := s.attempts + 1, trace := s.trace ++ [b] }

/-- `writer.flush`: same skip-on-sticky-error discipline as
`writer.write`, with one physical flush attempted otherwise. -/
def writerFlush (env : Nat → Option Nat) (s : WriterState) : WriterState :=
  match s.err with
  | some _ => s
  | none =>
    match env s.attempts with
    | some e => { s with err := some e, attempts := s.attempts + 1 }
    | none => { s with attempts := s.attempts + 1 }

/-- `writer.WriteWord`: writes the length prefix, then the payload. -/
def writeWord (env : Nat → Option Nat) (s : WriterState) (word : List Nat) :
    WriterState :=
  writerWrite env (writerWrite env s (encodeLength word.length)) word

/-- The words of one sentence written through `WriteWord`. -/
def writeWords (env : Nat → Option Nat) (s : WriterState)
    (words : List (List Nat)) : WriterState :=
  words.foldl (writeWord env) s

/-- `writer.EndSentence`: writes the terminating empty word, flushes,
and returns the sticky `err` field. -/
def endSentence (env : Nat → Option Nat) (s : WriterState) :
    WriterState × Option Nat :=
  let s1 := writerFlush env (writeWord env s [])
  (s1, s1.err)

/-- The first failure among the first `k` physical I/O attempts. -/
def firstErr (env : Nat → Option Nat) : Nat → Option Nat
  | 0 => none
  | k + 1 =>
    match firstErr env k with
    | some e => some e
    | none => env k

/-- A concrete environment whose first physical I/O attempt fails with
error `7` and all later attempts succeed. -/
def envF : Nat → Option Nat := fun n => if n = 0 then some 7 else none

/-! ### Command validation (Client.RunArgs) -/

/-- `strings.Trim(word, " ")`: remove leading and trailing spaces. -/
def trimSpaces (w : List Char) : List Char :=
  ((w.dropWhile (fun c => c = ' ')).reverse.dropWhile (fun c => c = ' ')).reverse

/-- A call made on the `proto.Writer` by `Client.RunArgs`. -/
inductive WriterCall where
  | beginSentence
  | writeWordCall (w : List Char)
deriving DecidableEq, Repr

/-- `errEmptyWord`. -/
inductive RunErr where
  | emptyWord
deriving DecidableEq, Repr

/-- The validation loop at the top of `Client.RunArgs`: true when some
word is empty or all spaces (`len(strings.Trim(word, " ")) == 0`). -/
def hasEmptyWord : List (List Char) → Bool
  | [] => false
  | w :: ws => if (trimSpaces w).length = 0 then true else hasEmptyWord ws

/-- The wire-facing phase of `Client.RunArgs`: the validation loop runs
before `BeginSentence`/`WriteWord`, so on a bad word no writer call at
all is made; otherwise the sentence is begun and each word written (the
sync/async completion is elided).  Returns the writer calls made and
the error, if any. -/
def runArgsWire (sentence : List (List Char)) :
    List WriterCall × Option RunErr :=
  if hasEmptyWord sentence then ([], some .emptyWord)
  else (WriterCall.beginSentence :: sentence.map WriterCall.writeWordCall, none)

/-! ### Login handshake (client.go) -/

/-- `encoding/hex`: numeric value of one hex digit character. -/
def fromHexChar (c : Char) : Option Nat :=
  if '0' ≤ c ∧ c ≤ '9' then some (c.toNat - '0'.toNat)
  else if 'a' ≤ c ∧ c ≤ 'f' then some (c.toNat - 'a'.toNat + 10)
  else if 'A' ≤ c ∧ c ≤ 'F' then some (c.toNat - 'A'.toNat + 10)
  else none

/-- `hex.DecodeString`: one byte per digit pair; an odd length or a
non-digit character is an error. -/
def hexDecode : List Char → Option (List Nat)
  | [] => some []
  | [_] => none
  | c1 :: c2 :: rest =>
    match fromHexChar c1, fromHexChar c2, hexDecode rest with
    | some hi, some lo, some bs => some ((hi * 16 + lo) :: bs)
    | _, _, _ => none

/-- Lowercase hex digit character for a value below 16. -/
def hexDigitChar (n : Nat) : Char :=
  if n < 10 then Char.ofNat ('0'.toNat + n)
  else Char.ofNat ('a'.toNat + (n - 10))

/-- `fmt %x` on a byte slice: two lowercase digits per byte
(`hextable[v>>4]`, `hextable[v&0x0f]`). -/
def hexEncode : List Nat → List Char
  | [] => []
  | b :: bs => hexDigitChar (b >>> 4 &&& 0xF) :: hexDigitChar (b &&& 0xF) :: hexEncode bs

/-- `Client.challengeResponse` (client.go): `"00" + hex(md5(0x00 ‖
password ‖ challenge))`.  The MD5 compression itself is `crypto/md5`
library code, abstracted as the function parameter `md5` over the
message bytes. -/
def challengeResponse (md5 : List Nat → List Nat) (cha : List Nat)
    (password : List Char) : List Char :=
  '0' :: '0' :: hexEncode (md5 (0 :: (password.map Char.toNat ++ cha)))

/-- Outcome of `Client.Login` after the first `/login` reply: success
with an optional follow-up command (the words of the second `Run`
call), or the invalid-hex error. -/
inductive LoginStep where
  | ok (followUp : Option (List (List Char)))
  | invalidHexErr
deriving DecidableEq, Repr

/-- The byte string `ret`. -/
def retKey : List Char := ['r', 'e', 't']

/-- `Client.Login` (client.go) after the first `/login` command
returned a non-nil terminal sentence `done`: look up the `ret`
challenge in the sentence map; absent means the post-6.43 one-stage
login already succeeded (no follow-up); otherwise decode the hex
challenge (failure is an error) and send exactly one follow-up
`/login` command carrying the challenge response. -/
def loginAfterFirstReply (md5 : List Nat → List Nat)
    (username password : List Char) (done : Sentence) : LoginStep :=
  match done.map.lookup retKey with
  | none => .ok none
  | some ret =>
    match hexDecode ret with
    | none => .invalidHexErr
    | some b =>
      .ok (some ["/login".toList,
        "=name=".toList ++ username,
        "=response=".toList ++ challengeResponse md5 b password])

/-! ### Tag allocation (client.go nextTag, part_000 endCommandAsync) -/

/-- `Client.nextTag` (client.go): `c.lastTag.Add(1)` on an
`atomic.Uint64`, which increments modulo `2^64` and returns the new
value.  The atomic makes allocations linearizable, so concurrent
allocations are modelled by their serialization order. -/
def nextTag (lastTag : Nat) : Nat := (lastTag + 1) % 2 ^ 64

/-- The counter value after `k` allocations (initially zero). -/
def lastTagAfter : Nat → Nat
  | 0 => 0
  | k + 1 => nextTag (lastTagAfter k)

/-- `strconv.FormatUint(v, 10)`: decimal digits, most significant
first. -/
def decChars (n : Nat) : List Char :=
  if _h : n < 10 then [Char.ofNat ('0'.toNat + n)]
  else decChars (n / 10) ++ [Char.ofNat ('0'.toNat + n % 10)]
termination_by n
decreasing_by exact Nat.div_lt_self (by omega) (by omega)

/-- The tag given to the `k`-th (0-based) asynchronous command:
`"r" + strconv.FormatUint(c.nextTag(), 10)` (part_000, line 70). -/
def tagOf (k : Nat) : List Char := 'r' :: decChars (lastTagAfter (k + 1))

/-- Decimal digits back to a number (to invert `decChars`). -/
def decVal (cs : List Char) : Nat :=
  cs.foldl (fun acc c => acc * 10 + (c.toNat - '0'.toNat)) 0

/-! ### Asynchronous wait timeout (part_000: newTimeoutTimer, RunArgs) -/

/-- `newTimeoutTimer` (part_000): a timer and its channel exist only
for a strictly positive duration; otherwise both stay nil.
`time.Duration` is an `int64`, modelled as `Int`. -/
def newTimeoutTimer (d : Int) : Option Unit :=
  if d > 0 then some () else none

/-- One iteration outcome of the `select` in the asynchronous
`RunArgs` wait loop. -/
inductive SelectOutcome where
  | recvOpen
  | recvClosed
  | timedOut
deriving DecidableEq, Repr

/-- Result of the wait loop, when it ends within the schedule. -/
inductive RunOutcome where
  | completed
  | asyncTimeout
deriving DecidableEq, Repr

/-- The `readAllSentences` loop of `Client.RunArgs` in asynchronous
mode: a message while the channel is open continues the loop, channel
closure ends it successfully, a timeout returns `errAsyncTimeout`. -/
def waitLoop : List SelectOutcome → Option RunOutcome
  | [] => none
  | SelectOutcome.recvOpen :: rest => waitLoop rest
  | SelectOutcome.recvClosed :: _ => some RunOutcome.completed
  | SelectOutcome.timedOut :: _ => some RunOutcome.asyncTimeout

/-- Go select semantics: a receive from a nil channel blocks forever,
so a `timedOut` outcome is only possible when `newTimeoutTimer`
actually produced a channel. -/
def admissibleSchedule (d : Int) (outs : List SelectOutcome) : Prop :=
  SelectOutcome.timedOut ∈ outs → (newTimeoutTimer d).isSome

/-! ### Arithmetic helpers for the bit-level reasoning -/

theorem and_mod_right {a : Nat} (m k : Nat) (h : a < 2 ^ k) :
    a &&& m = a &&& (m % 2 ^ k) := by
  apply Nat.eq_of_testBit_eq
  intro i
  rw [Nat.testBit_and, Nat.testBit_and, Nat.testBit_mod_two_pow]
  by_cases hik : i < k
  · simp [hik]
  · have hb : a < 2 ^ i :=
      lt_of_lt_of_le h (Nat.pow_le_pow_right (by norm_num) (Nat.le_of_not_lt hik))
    simp [hik, Nat.testBit_lt_two_pow hb]

theorem shiftLeft_lor_eq (a : Nat) {b k : Nat} (h : b < 2 ^ k) :
    ((a <<< k) ||| b) = a * 2 ^ k + b := by
  apply Nat.eq_of_testBit_eq
  intro i
  rw [Nat.testBit_or, Nat.testBit_shiftLeft]
  rw [show a * 2 ^ k + b = 2 ^ k * a + b from by ring]
  rw [Nat.testBit_mul_pow_two_add a h i]
  by_cases hik : i < k
  · simp [hik, Nat.not_le.mpr hik]
  · have hb : b < 2 ^ i :=
      lt_of_lt_of_le h (Nat.pow_le_pow_right (by norm_num) (Nat.le_of_not_lt hik))
    simp [hik, Nat.le_of_not_lt hik, Nat.testBit_lt_two_pow hb]

theorem byteClass1 : ∀ b < 0x80, b &&& 0x80 = 0 := by decide

theorem byteOr128 : ∀ h < 0x40, (h ||| 0x80) = h + 0x80 := by decide

theorem byteOr192 : ∀ h < 0x20, (h ||| 0xC0) = h + 0xC0 := by decide

theorem byteOr224 : ∀ h < 0x10, (h ||| 0xE0) = h + 0xE0 := by decide

theorem byteClass2 : ∀ b < 0xC0, 0x80 ≤ b →
    ¬b &&& 0x80 = 0 ∧ b &&& 0xC0 = 0x80 ∧ b &&& 0x3F = b - 0x80 := by decide

theorem byteClass3 : ∀ b < 0xE0, 0xC0 ≤ b →
    ¬b &&& 0x80 = 0 ∧ ¬b &&& 0xC0 = 0x80 ∧ b &&& 0xE0 = 0xC0 ∧
      b &&& 0x1F = b - 0xC0 := by decide

theorem byteClass4 : ∀ b < 0xF0, 0xE0 ≤ b →
    ¬b &&& 0x80 = 0 ∧ ¬b &&& 0xC0 = 0x80 ∧ ¬b &&& 0xE0 = 0xC0 ∧
      b &&& 0xF0 = 0xE0 ∧ b &&& 0x0F = b - 0xE0 := by decide

theorem byteClass5plus : ∀ b < 0x100, 0xF8 ≤ b →
    ¬b &&& 0x80 = 0 ∧ ¬b &&& 0xC0 = 0x80 ∧ ¬b &&& 0xE0 = 0xC0 ∧
      ¬b &&& 0xF0 = 0xE0 ∧ ¬b &&& 0xF8 = 0xF0 := by decide

theorem readNumber_one (b : Nat) (rest : List Nat) :
    readNumber 1 (b :: rest) = some (b, rest) := by
  simp [readNumber]

theorem readNumber_two (b1 b2 : Nat) (rest : List Nat) :
    readNumber 2 (b1 :: b2 :: rest) = some (((b1 <<< 8) ||| b2), rest) := by
  simp [readNumber]

theorem readNumber_three (b1 b2 b3 : Nat) (rest : List Nat) :
    readNumber 3 (b1 :: b2 :: b3 :: rest) =
      some (((((b1 <<< 8) ||| b2) <<< 8) ||| b3), rest) := by
  simp [readNumber]

theorem readNumber_four (b1 b2 b3 b4 : Nat) (rest : List Nat) :
    readNumber 4 (b1 :: b2 :: b3 :: b4 :: rest) =
      some (((((((b1 <<< 8) ||| b2) <<< 8) ||| b3) <<< 8) ||| b4), rest) := by
  simp [readNumber]

theorem roundTrip1 (L : Nat) (h : L < 0x80) (rest : List Nat) :
    readLength (encodeLength L ++ rest) = some (L, rest) := by
  have hm : L % 256 = L := Nat.mod_eq_of_lt (by omega)
  simp [encodeLength, h, hm, readLength, readNumber_one, byteClass1 L h]

theorem roundTrip2 (L : Nat) (h1 : 0x80 ≤ L) (h2 : L < 0x4000) (rest : List Nat) :
    readLength (encodeLength L ++ rest) = some (L, rest) := by
  have hs : L >>> 8 = L / 256 := by
    rw [Nat.shiftRight_eq_div_pow]
  have hb0 : ((L >>> 8) % 256) ||| 0x80 = L / 256 + 0x80 := by
    rw [hs, Nat.mod_eq_of_lt (by omega)]
    exact byteOr128 _ (by omega)
  obtain ⟨hn1, he2, ha⟩ := byteClass2 (L / 256 + 0x80) (by omega) (by omega)
  have henc : encodeLength L = [L / 256 + 0x80, L % 256] := by
    simp [encodeLength, show ¬L < 0x80 by omega, h2, hb0]
  have hmask : (L / 256 + 0x80) &&& compl64 0xC0 = L / 256 :=
    calc (L / 256 + 0x80) &&& compl64 0xC0
        = (L / 256 + 0x80) &&& (compl64 0xC0 % 2 ^ 8) :=
          and_mod_right _ 8 (by omega)
      _ = (L / 256 + 0x80) &&& 0x3F := by
          rw [show compl64 0xC0 % 2 ^ 8 = 0x3F from by decide]
      _ = L / 256 := by rw [ha]; omega
  rw [henc]
  simp only [List.cons_append, List.nil_append, readLength, readNumber_one,
    if_neg hn1, if_pos he2]
  rw [hmask, shiftLeft_lor_eq (L / 256) (show L % 256 < 2 ^ 8 by omega)]
  simp only [Option.some.injEq, Prod.mk.injEq]
  exact ⟨by omega, trivial⟩

theorem roundTrip3 (L : Nat) (h1 : 0x4000 ≤ L) (h2 : L < 0x200000) (rest : List Nat) :
    readLength (encodeLength L ++ rest) = some (L, rest) := by
  have hs : L >>> 16 = L / 65536 := by
    rw [Nat.shiftRight_eq_div_pow]
  have hs8 : L >>> 8 = L / 256 := by
    rw [Nat.shiftRight_eq_div_pow]
  have hb0 : ((L >>> 16) % 256) ||| 0xC0 = L / 65536 + 0xC0 := by
    rw [hs, Nat.mod_eq_of_lt (by omega)]
    exact byteOr192 _ (by omega)
  obtain ⟨hn1, hn2, he3, ha⟩ := byteClass3 (L / 65536 + 0xC0) (by omega) (by omega)
  have henc : encodeLength L =
      [L / 65536 + 0xC0, (L / 256) % 256, L % 256] := by
    simp [encodeLength, show ¬L < 0x80 by omega, show ¬L < 0x4000 by omega, h2,
      hb0, hs8]
  have hmask : (L / 65536 + 0xC0) &&& compl64 0xE0 = L / 65536 :=
    calc (L / 65536 + 0xC0) &&& compl64 0xE0
        = (L / 65536 + 0xC0) &&& (compl64 0xE0 % 2 ^ 8) :=
          and_mod_right _ 8 (by omega)
      _ = (L / 65536 + 0xC0) &&& 0x1F := by
          rw [show compl64 0xE0 % 2 ^ 8 = 0x1F from by decide]
      _ = L / 65536 := by rw [ha]; omega
  rw [henc]
  simp only [List.cons_append, List.nil_append, readLength, readNumber_one,
    readNumber_two, if_neg hn1, if_neg hn2, if_pos he3]
  rw [hmask, shiftLeft_lor_eq ((L / 256) % 256) (show L % 256 < 2 ^ 8 by omega),
    shiftLeft_lor_eq (L / 65536)
      (show (L / 256) % 256 * 2 ^ 8 + L % 256 < 2 ^ 16 by omega)]
  simp only [Option.some.injEq, Prod.mk.injEq]
  exact ⟨by omega, trivial⟩

theorem roundTrip4 (L : Nat) (h1 : 0x200000 ≤ L) (h2 : L < 0x10000000)
    (rest : List Nat) :
    readLength (encodeLength L ++ rest) = some (L, rest) := by
  have hs24 : L >>> 24 = L / 16777216 := by
    rw [Nat.shiftRight_eq_div_pow]
  have hs16 : L >>> 16 = L / 65536 := by
    rw [Nat.shiftRight_eq_div_pow]
  have hs8 : L >>> 8 = L / 256 := by
    rw [Nat.shiftRight_eq_div_pow]
  have hb0 : ((L >>> 24) % 256) ||| 0xE0 = L / 16777216 + 0xE0 := by
    rw [hs24, Nat.mod_eq_of_lt (by omega)]
    exact byteOr224 _ (by omega)
  obtain ⟨hn1, hn2, hn3, he4, ha⟩ :=
    byteClass4 (L / 16777216 + 0xE0) (by omega) (by omega)
  have henc : encodeLength L =
      [L / 16777216 + 0xE0, (L / 65536) % 256, (L / 256) % 256, L % 256] := by
    simp [encodeLength, show ¬L < 0x80 by omega, show ¬L < 0x4000 by omega,
      show ¬L < 0x200000 by omega, h2, hb0, hs16, hs8]
  have hmask : (L / 16777216 + 0xE0) &&& compl64 0xF0 = L / 16777216 :=
    calc (L / 16777216 + 0xE0) &&& compl64 0xF0
        = (L / 16777216 + 0xE0) &&& (compl64 0xF0 % 2 ^ 8) :=
          and_mod_right _ 8 (by omega)
      _ = (L / 16777216 + 0xE0) &&& 0x0F := by
          rw [show compl64 0xF0 % 2 ^ 8 = 0x0F from by decide]
      _ = L / 16777216 := by rw [ha]; omega
  rw [henc]
  simp only [List.cons_append, List.nil_append, readLength, readNumber_one,
    readNumber_three, if_neg hn1, if_neg hn2, if_neg hn3, if_pos he4]
  rw [hmask,
    shiftLeft_lor_eq ((L / 65536) % 256) (show (L / 256) % 256 < 2 ^ 8 by omega),
    shiftLeft_lor_eq ((L / 65536) % 256 * 2 ^ 8 + (L / 256) % 256)
      (show L % 256 < 2 ^ 8 by omega),
    shiftLeft_lor_eq (L / 16777216)
      (show ((L / 65536) % 256 * 2 ^ 8 + (L / 256) % 256) * 2 ^ 8 + L % 256
          < 2 ^ 24 by omega)]
  simp only [Option.some.injEq, Prod.mk.injEq]
  exact ⟨by omega, trivial⟩

theorem roundTrip5 (L : Nat) (h1 : 0x10000000 ≤ L) (h2 : L < 2 ^ 32)
    (rest : List Nat) :
    readLength (encodeLength L ++ rest) = some (L, rest) := by
  have hs24 : L >>> 24 = L / 16777216 := by
    rw [Nat.shiftRight_eq_div_pow]
  have hs16 : L >>> 16 = L / 65536 := by
    rw [Nat.shiftRight_eq_div_pow]
  have hs8 : L >>> 8 = L / 256 := by
    rw [Nat.shiftRight_eq_div_pow]
  have henc : encodeLength L =
      [0xF0, (L / 16777216) % 256, (L / 65536) % 256, (L / 256) % 256,
        L % 256] := by
    simp [encodeLength, show ¬L < 0x80 by omega, show ¬L < 0x4000 by omega,
      show ¬L < 0x200000 by omega, show ¬L < 0x10000000 by omega,
      hs24, hs16, hs8]
  rw [henc]
  simp only [List.cons_append, List.nil_append, readLength, readNumber_one,
    readNumber_four]
  rw [shiftLeft_lor_eq ((L / 16777216) % 256)
      (show (L / 65536) % 256 < 2 ^ 8 by omega),
    shiftLeft_lor_eq ((L / 16777216) % 256 * 2 ^ 8 + (L / 65536) % 256)
      (show (L / 256) % 256 < 2 ^ 8 by omega),
    shiftLeft_lor_eq
      (((L / 16777216) % 256 * 2 ^ 8 + (L / 65536) % 256) * 2 ^ 8 +
        (L / 256) % 256)
      (show L % 256 < 2 ^ 8 by omega)]
  rw [if_neg (by decide), if_neg (by decide), if_neg (by decide),
    if_neg (by decide), if_pos (by decide)]
  simp only [Option.some.injEq, Prod.mk.injEq]
  exact ⟨by omega, trivial⟩

theorem encodeLength_eq1 (L : Nat) (h : L < 0x80) : encodeLength L = [L] := by
  simp [encodeLength, h, Nat.mod_eq_of_lt (show L < 256 by omega)]

theorem encodeLength_eq2 (L : Nat) (h1 : 0x80 ≤ L) (h2 : L < 0x4000) :
    encodeLength L = [L / 256 + 0x80, L % 256] := by
  have hb0 : ((L >>> 8) % 256) ||| 0x80 = L / 256 + 0x80 := by
    rw [Nat.shiftRight_eq_div_pow, Nat.mod_eq_of_lt (by omega)]
    exact byteOr128 _ (by omega)
  simp [encodeLength, show ¬L < 0x80 by omega, h2, hb0]

theorem encodeLength_eq3 (L : Nat) (h1 : 0x4000 ≤ L) (h2 : L < 0x200000) :
    encodeLength L = [L / 65536 + 0xC0, L / 256 % 256, L % 256] := by
  have hb0 : ((L >>> 16) % 256) ||| 0xC0 = L / 65536 + 0xC0 := by
    rw [Nat.shiftRight_eq_div_pow, Nat.mod_eq_of_lt (by omega)]
    exact byteOr192 _ (by omega)
  have hs8 : L >>> 8 = L / 256 := by rw [Nat.shiftRight_eq_div_pow]
  simp [encodeLength, show ¬L < 0x80 by omega, show ¬L < 0x4000 by omega, h2,
    hb0, hs8]

theorem encodeLength_eq4 (L : Nat) (h1 : 0x200000 ≤ L) (h2 : L < 0x10000000) :
    encodeLength L =
      [L / 16777216 + 0xE0, L / 65536 % 256, L / 256 % 256, L % 256] := by
  have hb0 : ((L >>> 24) % 256) ||| 0xE0 = L / 16777216 + 0xE0 := by
    rw [Nat.shiftRight_eq_div_pow, Nat.mod_eq_of_lt (by omega)]
    exact byteOr224 _ (by omega)
  have hs16 : L >>> 16 = L / 65536 := by rw [Nat.shiftRight_eq_div_pow]
  have hs8 : L >>> 8 = L / 256 := by rw [Nat.shiftRight_eq_div_pow]
  simp [encodeLength, show ¬L < 0x80 by omega, show ¬L < 0x4000 by omega,
    show ¬L < 0x200000 by omega, h2, hb0, hs16, hs8]

theorem encodeLength_eq5 (L : Nat) (h1 : 0x10000000 ≤ L) :
    encodeLength L =
      [0xF0, L / 16777216 % 256, L / 65536 % 256, L / 256 % 256, L % 256] := by
  have hs24 : L >>> 24 = L / 16777216 := by rw [Nat.shiftRight_eq_div_pow]
  have hs16 : L >>> 16 = L / 65536 := by rw [Nat.shiftRight_eq_div_pow]
  have hs8 : L >>> 8 = L / 256 := by rw [Nat.shiftRight_eq_div_pow]
  simp [encodeLength, show ¬L < 0x80 by omega, show ¬L < 0x4000 by omega,
    show ¬L < 0x200000 by omega, show ¬L < 0x10000000 by omega, hs24, hs16, hs8]

/-- C1: for every word length `L` (up to the 32-bit range, which covers
`0x10000080`), decoding with `readLength` the bytes produced by
`encodeLength` yields `L` again (with the remaining stream untouched),
and the encoding matches the five documented size classes byte for
byte: one raw byte below `0x80`, a two-byte form with top bits `10`
below `0x4000`, a three-byte form with top bits `110` below `0x200000`,
a four-byte form with top bits `1110` below `0x10000000`, and otherwise
the marker byte `0xF0` followed by the four big-endian length bytes. -/
theorem c1_encodeLength_readLength_roundTrip (L : Nat) (h : L < 2 ^ 32)
    (rest : List Nat) :
    readLength (encodeLength L ++ rest) = some (L, rest) ∧
    (L < 0x80 → encodeLength L = [L]) ∧
    (0x80 ≤ L → L < 0x4000 →
      encodeLength L = [0x80 + L / 256, L % 256]) ∧
    (0x4000 ≤ L → L < 0x200000 →
      encodeLength L = [0xC0 + L / 65536, L / 256 % 256, L % 256]) ∧
    (0x200000 ≤ L → L < 0x10000000 →
      encodeLength L =
        [0xE0 + L / 16777216, L / 65536 % 256, L / 256 % 256, L % 256]) ∧
    (0x10000000 ≤ L →
      encodeLength L =
        [0xF0, L / 16777216 % 256, L / 65536 % 256, L / 256 % 256, L % 256]) := by
  refine ⟨?_, ?_, ?_, ?_, ?_, ?_⟩
  · by_cases hc1 : L < 0x80
    · exact roundTrip1 L hc1 rest
    · by_cases hc2 : L < 0x4000
      · exact roundTrip2 L (by omega) hc2 rest
      · by_cases hc3 : L < 0x200000
        · exact roundTrip3 L (by omega) hc3 rest
        · by_cases hc4 : L < 0x10000000
          · exact roundTrip4 L (by omega) hc4 rest
          · exact roundTrip5 L (by omega) h rest
  · intro hc; exact encodeLength_eq1 L hc
  · intro hl hc; rw [encodeLength_eq2 L hl hc, Nat.add_comm]
  · intro hl hc; rw [encodeLength_eq3 L hl hc, Nat.add_comm]
  · intro hl hc; rw [encodeLength_eq4 L hl hc, Nat.add_comm]
  · intro hl; exact encodeLength_eq5 L hl

theorem c1_encodeLength_readLength_roundTrip_witness :
    readLength (encodeLength 0x10000080 ++ []) = some (0x10000080, []) ∧
    encodeLength 0x10000080 = [0xF0, 0x10, 0x00, 0x00, 0x80] := by
  obtain ⟨hrt, -, -, -, -, h5⟩ :=
    c1_encodeLength_readLength_roundTrip 0x10000080 (by norm_num) []
  refine ⟨hrt, ?_⟩
  rw [h5 (by norm_num)]

/-- C8: a first length byte whose top five bits are all set
(`0xF8`–`0xFF`) matches none of the five marker cases of `readLength`;
no continuation bytes are consumed and the raw byte value itself is
returned as the decoded length, with no error. -/
theorem c8_readLength_unhandled_marker (b : Nat) (h1 : 0xF8 ≤ b)
    (h2 : b ≤ 0xFF) (rest : List Nat) :
    readLength (b :: rest) = some (b, rest) := by
  obtain ⟨hn1, hn2, hn3, hn4, hn5⟩ := byteClass5plus b (by omega) h1
  simp only [readLength, readNumber_one, if_neg hn1, if_neg hn2, if_neg hn3,
    if_neg hn4, if_neg hn5]

theorem c8_readLength_unhandled_marker_witness :
    readLength [0xFA, 1, 2] = some (0xFA, [1, 2]) :=
  c8_readLength_unhandled_marker 0xFA (by norm_num) (by norm_num) [1, 2]

theorem splitFirstEq_no_eq (k : List Char) (h : '=' ∉ k) :
    splitFirstEq k = (k, none) := by
  induction k with
  | nil => rfl
  | cons c cs ih =>
    have hc : ¬c = '=' := by
      intro hc; exact h (hc ▸ List.mem_cons_self c cs)
    have hcs : '=' ∉ cs := fun hm => h (List.mem_cons_of_mem c hm)
    simp [splitFirstEq, hc, ih hcs]

theorem splitFirstEq_found (k v : List Char) (h : '=' ∉ k) :
    splitFirstEq (k ++ '=' :: v) = (k, some v) := by
  induction k with
  | nil => simp [splitFirstEq]
  | cons c cs ih =>
    have hc : ¬c = '=' := by
      intro hc; exact h (hc ▸ List.mem_cons_self c cs)
    have hcs : '=' ∉ cs := fun hm => h (List.mem_cons_of_mem c hm)
    simp [splitFirstEq, hc, ih hcs]

/-- C2: the word stream `!re`, `.tag=r1`, `=name=value`, `""` parses
without error into a sentence with verb `!re`, tag `r1` and exactly the
one pair `(name, value)`; and in general the first non-empty word
becomes the verb, a later `.tag=`-word sets the tag to the suffix, and
a later `=`-word is split on the next `=` into a key/value pair whose
value is empty when no second `=` is present. -/
theorem c2_ReadSentence_parses (sen : Sentence) :
    (ReadSentence ["!re".toList, ".tag=r1".toList, "=name=value".toList, []] =
      .ok (⟨"!re".toList, "r1".toList, [⟨"name".toList, "value".toList⟩],
        [("name".toList, "value".toList)]⟩, [])) ∧
    (∀ w ws, sen.word = [] → ¬w = [] →
      readSentenceWords sen (w :: ws) =
        readSentenceWords { sen with word := w } ws) ∧
    (∀ t ws, ¬sen.word = [] →
      readSentenceWords sen ((tagMark ++ t) :: ws) =
        readSentenceWords { sen with tag := t } ws) ∧
    (∀ k v ws, ¬sen.word = [] → '=' ∉ k →
      readSentenceWords sen (('=' :: (k ++ '=' :: v)) :: ws) =
        readSentenceWords
          { sen with
            list := sen.list ++ [⟨k, v⟩],
            map := mapInsert sen.map k v } ws) ∧
    (∀ k ws, ¬sen.word = [] → '=' ∉ k →
      readSentenceWords sen (('=' :: k) :: ws) =
        readSentenceWords
          { sen with
            list := sen.list ++ [⟨k, []⟩],
            map := mapInsert sen.map k [] } ws) := by
  refine ⟨by rfl, ?_, ?_, ?_, ?_⟩
  · intro w ws hv hw
    simp [readSentenceWords, hw, hv]
  · intro t ws hv
    have hpre : tagMark.isPrefixOf (tagMark ++ t) = true :=
      List.isPrefixOf_iff_prefix.mpr (List.prefix_append _ _)
    simp [readSentenceWords, hv, hpre, tagMark]
  · intro k v ws hv hk
    simp [readSentenceWords, hv, tagMark, splitFirstEq_found k v hk]
  · intro k ws hv hk
    simp [readSentenceWords, hv, tagMark, splitFirstEq_no_eq k hk]

theorem c2_ReadSentence_parses_witness :
    readSentenceWords ⟨"!re".toList, [], [], []⟩
        [".tag=r7".toList ++ [], []] =
      readSentenceWords ⟨"!re".toList, "r7".toList, [], []⟩ [[]] := by
  have h := (c2_ReadSentence_parses ⟨"!re".toList, [], [], []⟩).2.2.1
    "r7".toList [[]] (by decide)
  simpa [tagMark] using h

/-- C7: a word that is not the sentence's first (the verb is already
set), is non-empty and starts neither with `=` nor with `.tag=` makes
`ReadSentence` return the `invalid RouterOS sentence word` error
instead of being skipped; in particular this holds for the second word
of a stream whose first (verb) word is non-empty. -/
theorem c7_ReadSentence_invalid_word (sen : Sentence) (v w : List Char)
    (ws : List (List Char)) (hv : ¬sen.word = []) (hw : ¬w = [])
    (ht : ¬tagMark.isPrefixOf w) (he : ¬['='].isPrefixOf w) :
    readSentenceWords sen (w :: ws) = .error (.invalidSentenceWord w) ∧
    (¬v = [] → ReadSentence (v :: w :: ws) = .error (.invalidSentenceWord w)) := by
  constructor
  · simp [readSentenceWords, hw, hv, ht, he]
  · intro hvne
    show readSentenceWords NewSentence (v :: w :: ws) = _
    have h1 : readSentenceWords NewSentence (v :: w :: ws) =
        readSentenceWords { NewSentence with word := v } (w :: ws) := by
      simp [readSentenceWords, hvne, NewSentence]
    rw [h1]
    simp [readSentenceWords, hw, ht, he, NewSentence, hvne]

theorem c7_ReadSentence_invalid_word_witness :
    ReadSentence ["!re".toList, "bad".toList, []] =
      .error (.invalidSentenceWord "bad".toList) :=
  (c7_ReadSentence_invalid_word ⟨"!re".toList, [], [], []⟩ "!re".toList
    "bad".toList [[]] (by decide) (by decide) (by decide) (by decide)).2
    (by decide)

/-- C10: the first non-empty word of a sentence is always stored as the
verb, even when it looks like a tag or an attribute: the `.tag=` and
`=` interpretations only apply once the verb is set.  In particular a
sentence whose only word is `.tag=x` parses with verb `.tag=x` and an
empty tag. -/
theorem c10_ReadSentence_first_word_is_verb (w : List Char)
    (ws : List (List Char)) (hw : ¬w = []) :
    ReadSentence (w :: ws) = readSentenceWords ⟨w, [], [], []⟩ ws ∧
    ReadSentence [".tag=x".toList, []] =
      .ok (⟨".tag=x".toList, [], [], []⟩, []) := by
  constructor
  · show readSentenceWords NewSentence (w :: ws) = _
    simp [readSentenceWords, hw, NewSentence]
  · rfl

theorem c10_ReadSentence_first_word_is_verb_witness :
    ReadSentence ["=x=1".toList, []] =
      readSentenceWords ⟨"=x=1".toList, [], [], []⟩ [[]] :=
  (c10_ReadSentence_first_word_is_verb "=x=1".toList [[]] (by decide)).1

theorem firstErr_isSome (env : Nat → Option Nat) (k : Nat) (e : Nat)
    (h : firstErr env k = some e) : firstErr env (k + 1) = some e := by
  simp [firstErr, h]

theorem writerWrite_skip (env : Nat → Option Nat) (s : WriterState)
    (b : List Nat) (e : Nat) (h : s.err = some e) : writerWrite env s b = s := by
  simp [writerWrite, h]

theorem writerFlush_skip (env : Nat → Option Nat) (s : WriterState)
    (e : Nat) (h : s.err = some e) : writerFlush env s = s := by
  simp [writerFlush, h]

theorem writerWrite_inv (env : Nat → Option Nat) (s : WriterState)
    (b : List Nat) (h : s.err = firstErr env s.attempts) :
    (writerWrite env s b).err = firstErr env (writerWrite env s b).attempts := by
  match hs : s.err with
  | some e => rw [writerWrite_skip env s b e hs, hs]; exact hs.symm.trans h
  | none =>
    rw [h] at hs
    unfold writerWrite
    rw [h]
    match he : env s.attempts with
    | some e => simp [hs, he, firstErr]
    | none => simp [hs, he, firstErr]

theorem writerFlush_inv (env : Nat → Option Nat) (s : WriterState)
    (h : s.err = firstErr env s.attempts) :
    (writerFlush env s).err = firstErr env (writerFlush env s).attempts := by
  match hs : s.err with
  | some e => rw [writerFlush_skip env s e hs, hs]; exact hs.symm.trans h
  | none =>
    rw [h] at hs
    unfold writerFlush
    rw [h]
    match he : env s.attempts with
    | some e => simp [hs, he, firstErr]
    | none => simp [hs, he, firstErr]

theorem writeWord_inv (env : Nat → Option Nat) (s : WriterState)
    (w : List Nat) (h : s.err = firstErr env s.attempts) :
    (writeWord env s w).err = firstErr env (writeWord env s w).attempts :=
  writerWrite_inv env _ w (writerWrite_inv env s _ h)

theorem writeWords_inv (env : Nat → Option Nat) (words : List (List Nat))
    (s : WriterState) (h : s.err = firstErr env s.attempts) :
    (writeWords env s words).err =
      firstErr env (writeWords env s words).attempts := by
  induction words generalizing s with
  | nil => exact h
  | cons w ws ih =>
    show (writeWords env (writeWord env s w) ws).err = _
    exact ih _ (writeWord_inv env s w h)

theorem firstErr_none_of_env_none (env : Nat → Option Nat)
    (h : ∀ n, env n = none) : ∀ k, firstErr env k = none := by
  intro k
  induction k with
  | zero => rfl
  | succ k ih => simp [firstErr, ih, h k]

/-- C3 counterexample: the writer's `err` field is never reset, so it
is sticky across sentences, not per sentence.  With an environment
whose very first physical I/O attempt fails with error `7`, the first
sentence fails; writing a second sentence through the same writer
performs no I/O at all (the attempt counter does not move, so no write
or flush of that second sentence fails), yet `EndSentence` of the
second sentence still returns error `7` instead of no error as the
claim states. -/
theorem c3_writer_sticky_error_cex :
    (endSentence envF (writeWords envF
        (endSentence envF (writeWords envF initWriter [[65]])).1
        [[66]])).1.attempts =
      (endSentence envF (writeWords envF initWriter [[65]])).1.attempts ∧
    (endSentence envF (writeWords envF
        (endSentence envF (writeWords envF initWriter [[65]])).1
        [[66]])).2 = some 7 := by
  constructor <;> rfl

/-- C3 (amended): within the lifetime of a writer, once some write or
flush fails every later write and flush is skipped (no I/O, state
unchanged), and `EndSentence` returns the first I/O error among the
physical attempts made on the writer since its creation — so for a
sentence written on a fresh writer this is the first error of that
sentence, and `none` when no write or flush failed.  (The error is not
reset between sentences; see the counterexample.) -/
theorem c3_writer_sticky_error (env : Nat → Option Nat)
    (words : List (List Nat)) :
    (∀ s b e, s.err = some e →
      writerWrite env s b = s ∧ writerFlush env s = s) ∧
    (endSentence env (writeWords env initWriter words)).2 =
      firstErr env
        (endSentence env (writeWords env initWriter words)).1.attempts ∧
    ((∀ n, env n = none) →
      (endSentence env (writeWords env initWriter words)).2 = none) := by
  have hinv : (endSentence env (writeWords env initWriter words)).2 =
      firstErr env
        (endSentence env (writeWords env initWriter words)).1.attempts := by
    have h0 : initWriter.err = firstErr env initWriter.attempts := rfl
    exact writerFlush_inv env _ (writeWord_inv env _ [] (writeWords_inv env words initWriter h0))
  refine ⟨fun s b e h => ⟨writerWrite_skip env s b e h, writerFlush_skip env s e h⟩,
    hinv, fun hn => ?_⟩
  rw [hinv, firstErr_none_of_env_none env hn]

theorem c3_writer_sticky_error_witness :
    (endSentence (fun _ => none) (writeWords (fun _ => none) initWriter
      [[65]])).2 = none :=
  (c3_writer_sticky_error (fun _ => none) [[65]]).2.2 (fun _ => rfl)

theorem hasEmptyWord_of_mem (s : List (List Char)) (w : List Char)
    (hw : w ∈ s) (h : (trimSpaces w).length = 0) : hasEmptyWord s = true := by
  induction s with
  | nil => cases hw
  | cons x xs ih =>
    rcases List.mem_cons.mp hw with h1 | h2
    · simp [hasEmptyWord, h1 ▸ h]
    · unfold hasEmptyWord
      split
      · rfl
      · exact ih h2

/-- C4 counterexample: the validation runs `strings.Trim(word, " ")`,
which strips only the space character U+0020, not whitespace in
general.  A word consisting of a single tab character (code point 9) is
all whitespace, yet it survives the trim (the trimmed word still has
length 1), passes validation, and the sentence is written: `RunArgs`
reaches `BeginSentence`/`WriteWord` with no empty-word error, refuting
the claim for whitespace other than spaces. -/
theorem c4_runArgs_empty_word_cex :
    (trimSpaces [Char.ofNat 9]).length = 1 ∧
    runArgsWire ["/ip/address/add".toList, [Char.ofNat 9]] =
      ([WriterCall.beginSentence,
        WriterCall.writeWordCall "/ip/address/add".toList,
        WriterCall.writeWordCall [Char.ofNat 9]], none) := by
  constructor <;> rfl

/-- C4 (amended): a command sentence containing a word that is empty or
consists only of space characters (U+0020 — the only characters
`strings.Trim(word, " ")` removes; other whitespace such as tab passes
validation, see the counterexample) makes `RunArgs` fail with the
empty-word error before any data is written: no `BeginSentence` or
`WriteWord` call is made (the call list is empty).  In particular
`Run("/ip/address/add", "")` and `Run("/ip/address/add", "   ")` both
fail this way. -/
theorem c4_runArgs_empty_word (sentence : List (List Char)) (w : List Char)
    (hw : w ∈ sentence) (h : (trimSpaces w).length = 0) :
    runArgsWire sentence = ([], some .emptyWord) ∧
    runArgsWire ["/ip/address/add".toList, "".toList] =
      ([], some .emptyWord) ∧
    runArgsWire ["/ip/address/add".toList, "   ".toList] =
      ([], some .emptyWord) := by
  refine ⟨?_, by rfl, by rfl⟩
  simp [runArgsWire, hasEmptyWord_of_mem sentence w hw h]

theorem c4_runArgs_empty_word_witness :
    runArgsWire ["/ip/address/add".toList, "".toList] =
      ([], some .emptyWord) :=
  (c4_runArgs_empty_word ["/ip/address/add".toList, "".toList] "".toList
    (by simp) (by rfl)).1

/-- C5: when the terminal sentence of the first `/login` reply carries
a `ret` attribute that is a valid hex string, `Login` sends exactly one
follow-up `/login` command whose `response` attribute is `00` followed
by the lowercase hex encoding of `MD5(0x00 ‖ password ‖ challenge)`;
when the (non-nil) terminal sentence carries no `ret` attribute, login
succeeds with no follow-up command. -/
theorem c5_login_challenge_response (md5 : List Nat → List Nat)
    (username password : List Char) (done : Sentence) :
    (∀ ret b, done.map.lookup retKey = some ret → hexDecode ret = some b →
      loginAfterFirstReply md5 username password done =
        .ok (some ["/login".toList,
          "=name=".toList ++ username,
          "=response=".toList ++
            ('0' :: '0' ::
              hexEncode (md5 (0 :: (password.map Char.toNat ++ b))))])) ∧
    (done.map.lookup retKey = none →
      loginAfterFirstReply md5 username password done = .ok none) := by
  constructor
  · intro ret b hret hb
    simp [loginAfterFirstReply, hret, hb, challengeResponse]
  · intro hret
    simp [loginAfterFirstReply, hret]

theorem c5_login_challenge_response_witness :
    loginAfterFirstReply (fun _ => [1, 2]) "adm".toList "pw".toList
        ⟨"!done".toList, [], [], [(retKey, ['a', 'b'])]⟩ =
      .ok (some ["/login".toList,
        "=name=".toList ++ "adm".toList,
        "=response=".toList ++
          ('0' :: '0' ::
            hexEncode ((fun _ => [1, 2])
              (0 :: ("pw".toList.map Char.toNat ++ [0xAB]))))]) :=
  (c5_login_challenge_response (fun _ => [1, 2]) "adm".toList "pw".toList
    ⟨"!done".toList, [], [], [(retKey, ['a', 'b'])]⟩).1
    ['a', 'b'] [0xAB] (by rfl) (by rfl)

theorem decVal_append (cs : List Char) (c : Char) :
    decVal (cs ++ [c]) = decVal cs * 10 + (c.toNat - '0'.toNat) := by
  simp [decVal, List.foldl_append]

theorem digitChar_val : ∀ m < 10, (Char.ofNat ('0'.toNat + m)).toNat = 48 + m := by
  decide

theorem decVal_decChars (n : Nat) : decVal (decChars n) = n := by
  induction n using Nat.strong_induction_on with
  | _ n ih =>
    have h0 : '0'.toNat = 48 := rfl
    by_cases h : n < 10
    · rw [decChars, dif_pos h]
      simp only [decVal, List.foldl_cons, List.foldl_nil]
      rw [digitChar_val n h, h0]
      omega
    · rw [decChars, dif_neg h]
      rw [decVal_append, ih (n / 10) (Nat.div_lt_self (by omega) (by omega)),
        digitChar_val (n % 10) (by omega), h0]
      omega

theorem decChars_injective (a b : Nat) (h : decChars a = decChars b) : a = b := by
  have := decVal_decChars a
  rw [h, decVal_decChars b] at this
  omega

theorem lastTagAfter_eq (k : Nat) : lastTagAfter k = k % 2 ^ 64 := by
  induction k with
  | zero => rfl
  | succ k ih =>
    show nextTag (lastTagAfter k) = _
    rw [ih]
    unfold nextTag
    omega

/-- C6 counterexample: the tag counter is a `uint64` that wraps, so
allocation number `2^64` receives the same tag `r1` as allocation
number `0`; "any two asynchronous commands receive distinct tags" fails
at that concrete pair (and the counter does not strictly increase
there). -/
theorem c6_distinct_tags_cex : tagOf 0 = tagOf (2 ^ 64) ∧ (0 : Nat) ≠ 2 ^ 64 := by
  constructor
  · unfold tagOf
    rw [lastTagAfter_eq, lastTagAfter_eq]
    norm_num
  · norm_num

/-- C6 (amended): each asynchronous command gets the tag `"r"` followed
by the decimal rendering of the allocation counter, which increases
strictly modulo `2^64`; any two of the first `2^64` allocations (in
particular any two that can occur in a program's lifetime, concurrent
ones included via the atomic's linearization) receive distinct tags.
Beyond `2^64` allocations the `uint64` counter wraps and tags repeat. -/
theorem c6_distinct_tags (i j : Nat) (hi : i < 2 ^ 64) (hj : j < 2 ^ 64)
    (hne : i ≠ j) :
    tagOf i ≠ tagOf j ∧
    (i + 1 < 2 ^ 64 → lastTagAfter (i + 1) = lastTagAfter i + 1) := by
  constructor
  · intro heq
    have hcons : decChars (lastTagAfter (i + 1)) =
        decChars (lastTagAfter (j + 1)) := by
      exact List.cons.inj heq |>.2
    have := decChars_injective _ _ hcons
    rw [lastTagAfter_eq, lastTagAfter_eq] at this
    omega
  · intro hlt
    rw [lastTagAfter_eq, lastTagAfter_eq]
    omega

theorem c6_distinct_tags_witness :
    tagOf 0 ≠ tagOf 1 ∧ (0 + 1 < 2 ^ 64 → lastTagAfter (0 + 1) = lastTagAfter 0 + 1) :=
  c6_distinct_tags 0 1 (by norm_num) (by norm_num) (by norm_num)

theorem waitLoop_timeout_mem (outs : List SelectOutcome)
    (h : waitLoop outs = some RunOutcome.asyncTimeout) :
    SelectOutcome.timedOut ∈ outs := by
  induction outs with
  | nil => simp [waitLoop] at h
  | cons o rest ih =>
    cases o with
    | recvOpen => exact List.mem_cons_of_mem _ (ih h)
    | recvClosed => simp [waitLoop] at h
    | timedOut => exact List.mem_cons_self _ _

/-- C9: with a configured timeout `d ≤ 0`, `newTimeoutTimer` returns a
nil timeout channel, the wait on the completion channel is unbounded,
and the asynchronous `RunArgs` wait can never end in the async-timeout
error; only a strictly positive timeout can produce it. -/
theorem c9_no_timeout_when_nonpositive (d : Int) (outs : List SelectOutcome)
    (hd : d ≤ 0) (hadm : admissibleSchedule d outs) :
    newTimeoutTimer d = none ∧
    waitLoop outs ≠ some RunOutcome.asyncTimeout := by
  have hnone : newTimeoutTimer d = none := by
    simp [newTimeoutTimer, show ¬d > 0 by omega]
  refine ⟨hnone, fun h => ?_⟩
  have hmem := waitLoop_timeout_mem outs h
  have := hadm hmem
  rw [hnone] at this
  simp at this

theorem c9_no_timeout_when_nonpositive_witness :
    newTimeoutTimer 0 = none ∧
    waitLoop [SelectOutcome.recvOpen, SelectOutcome.recvClosed] ≠
      some RunOutcome.asyncTimeout :=
  c9_no_timeout_when_nonpositive 0
    [SelectOutcome.recvOpen, SelectOutcome.recvClosed]
    (by norm_num) (fun h => absurd h (by decide))

end RouterOS
